

import Mathlib

/-!
Verification of the nested-transaction coordinator and the currency
service.

This file gives a shallow embedding of the `DbTransactionService` nested
transaction coordinator and of `CurrencyService`
(`src/packages/medusa/src/services/currency.ts`), and proves the frozen
claims about them.  The coordinator's own implementation is not part of the
provided excerpt (only its integration tests and callers are), so its
embedding is modelled from the specification's contract in §4.1, while the
currency service definitions are translated from the source file.
-/

set_option maxHeartbeats 1000000

/-- Observable database-layer action: physical transaction begin, a row
write issued inside a transaction, physical commit, physical rollback, or
an event emitted on the event bus. -/
inductive DbAction (Row Ev : Type) where
  | begin : DbAction Row Ev
  | write (r : Row) : DbAction Row Ev
  | commit : DbAction Row Ev
  | rollback : DbAction Row Ev
  | emit (e : Ev) : DbAction Row Ev
deriving DecidableEq

/-- Modelled from the spec: the database connection abstraction (§6) that can
begin, commit and roll back physical transactions.  `committed` is the
durably visible state, `openTxns` maps the id of each open physical
transaction to its pending (uncommitted) writes, `nextId` generates fresh
transaction ids, and `log` is the trace of observable actions at the
database layer. -/
structure Conn (Row Ev : Type) where
  committed : List Row
  openTxns : List (Nat × List Row)
  nextId : Nat
  log : List (DbAction Row Ev)
deriving DecidableEq

/-- A transaction handle is the id of an open physical transaction. -/
abbrev Handle := Nat

/-- Modelled from the spec: begin a new physical transaction (fresh handle
`c.nextId`, empty pending buffer). -/
def beginTxn {Row Ev : Type} (c : Conn Row Ev) : Conn Row Ev :=
  { c with
    openTxns := c.openTxns ++ [(c.nextId, [])]
    nextId := c.nextId + 1
    log := c.log ++ [DbAction.begin] }

/-- Modelled from the spec: issue a row write through a transaction handle;
the row is appended to that transaction's pending buffer. -/
def writeRow {Row Ev : Type} (h : Handle) (r : Row) (c : Conn Row Ev) :
    Conn Row Ev :=
  { c with
    openTxns := c.openTxns.map fun p => if p.1 = h then (p.1, p.2 ++ [r]) else p
    log := c.log ++ [DbAction.write r] }

/-- Pending writes of the open physical transaction with handle `h`. -/
def buffer {Row Ev : Type} (h : Handle) (c : Conn Row Ev) : List Row :=
  match c.openTxns.find? (fun p => p.1 == h) with
  | some p => p.2
  | none => []

/-- Modelled from the spec: commit the physical transaction `h`; its pending
writes become durably visible and the transaction closes. -/
def commitTxn {Row Ev : Type} (h : Handle) (c : Conn Row Ev) : Conn Row Ev :=
  { c with
    committed := c.committed ++ buffer h c
    openTxns := c.openTxns.filter fun p => ¬(p.1 = h)
    log := c.log ++ [DbAction.commit] }

/-- Modelled from the spec: roll back the physical transaction `h`; its
pending writes are discarded and the durable state is untouched. -/
def rollbackTxn {Row Ev : Type} (h : Handle) (c : Conn Row Ev) : Conn Row Ev :=
  { c with
    openTxns := c.openTxns.filter fun p => ¬(p.1 = h)
    log := c.log ++ [DbAction.rollback] }

/-- Emit an event on the event bus. Emission is immediate and is not part of
any transaction, so it is never rolled back. -/
def emitEvent {Row Ev : Type} (e : Ev) (c : Conn Row Ev) : Conn Row Ev :=
  { c with log := c.log ++ [DbAction.emit e] }

/-- Rows visible through an optional manager: the base manager (`none`) sees
only committed rows, a transaction manager (`some h`) additionally sees the
transaction's own pending writes. -/
def visibleRows {Row Ev : Type} (m : Option Handle) (c : Conn Row Ev) :
    List Row :=
  match m with
  | none => c.committed
  | some h => c.committed ++ buffer h c

/-- Well-formed connection: every open transaction id was allocated below
`nextId`, so `nextId` is fresh. -/
def Conn.WF {Row Ev : Type} (c : Conn Row Ev) : Prop :=
  ∀ p ∈ c.openTxns, p.1 < c.nextId

/-- Modelled from the spec: the options value accepted by `run` (§4.1): an
optional transaction handle of an enclosing caller and an optional error
handler.  A handler is a function which, given the error, either raises a
replacement error (`some`) or returns normally (`none`). -/
structure RunOptions (Err : Type) where
  transactionManager : Option Handle
  errorHandler : Option (Err → Option Err)

/-- Modelled from the spec (§4.1 step 6): apply the optional error handler
to a failure.  If the handler itself raises, its error replaces the
original; if there is no handler or the handler returns normally, the
original error propagates. -/
def applyHandler {Err : Type} (hnd : Option (Err → Option Err)) (e : Err) :
    Err :=
  match hnd with
  | none => e
  | some f => (f e).getD e

/-- Modelled from the spec: the coordinator contract `run(unitOfWork,
options?)` of §4.1.  With no `transactionManager` in the options the
invocation is outermost: it begins a new physical transaction, runs the
unit of work with the fresh handle, and commits on success or rolls back on
failure.  With a `transactionManager` the invocation joins that handle:
the unit of work runs against it and no commit or rollback is performed
here.  Failures pass through `applyHandler` before propagating. -/
def DbTransactionService.run {Row Ev Err α : Type}
    (uow : Handle → Conn Row Ev → Except Err α × Conn Row Ev)
    (opts : RunOptions Err) (c : Conn Row Ev) :
    Except Err α × Conn Row Ev :=
  match opts.transactionManager with
  | some h =>
    match uow h c with
    | (Except.ok a, c') => (Except.ok a, c')
    | (Except.error e, c') => (Except.error (applyHandler opts.errorHandler e), c')
  | none =>
    let h := c.nextId
    let c1 := beginTxn c
    match uow h c1 with
    | (Except.ok a, c') => (Except.ok a, commitTxn h c')
    | (Except.error e, c') =>
      (Except.error (applyHandler opts.errorHandler e), rollbackTxn h c')

/-- Modelled from the spec: syntax of units of work, as exercised by the
integration tests: issue a row insert through the current handle, raise an
error, sequence two steps, or invoke the coordinator again (`nested`).  A
nested invocation either forwards the ancestor's handle
(`forward = true`, i.e. `run(uow, { transactionManager })`) or passes no
handle (`forward = false`), and may carry an error handler. -/
inductive UoW (Row Err : Type) where
  | insert (r : Row) : UoW Row Err
  | fail (e : Err) : UoW Row Err
  | seq (a b : UoW Row Err) : UoW Row Err
  | nested (inner : UoW Row Err) (forward : Bool)
      (handler : Option (Err → Option Err)) : UoW Row Err

/-- Execute a unit of work against handle `h`.  The `nested` case is
definitionally the body of `DbTransactionService.run` applied to the inner
unit of work (see `exec_nested_eq_run`). -/
def exec {Row Ev Err : Type} :
    UoW Row Err → Handle → Conn Row Ev → Except Err Unit × Conn Row Ev
  | UoW.insert r, h, c => (Except.ok (), writeRow h r c)
  | UoW.fail e, _, c => (Except.error e, c)
  | UoW.seq a b, h, c =>
    match exec a h c with
    | (Except.ok _, c') => exec b h c'
    | (Except.error e, c') => (Except.error e, c')
  | UoW.nested i fwd hnd, h, c =>
    if fwd then
      match exec i h c with
      | (Except.ok a, c') => (Except.ok a, c')
      | (Except.error e, c') => (Except.error (applyHandler hnd e), c')
    else
      let h' := c.nextId
      let c1 := beginTxn c
      match exec i h' c1 with
      | (Except.ok a, c') => (Except.ok a, commitTxn h' c')
      | (Except.error e, c') => (Except.error (applyHandler hnd e), rollbackTxn h' c')

/-- A top-level coordinator invocation with the options omitted, as in the
integration tests: no forwarded handle and no error handler. -/
def runProgram {Row Ev Err : Type} (u : UoW Row Err) (c : Conn Row Ev) :
    Except Err Unit × Conn Row Ev :=
  DbTransactionService.run (exec u) ⟨none, none⟩ c

/-- Every nested invocation in the unit of work forwards the ancestor's
handle: the whole program is one logical call chain. -/
def allJoined {Row Err : Type} : UoW Row Err → Bool
  | UoW.insert _ => true
  | UoW.fail _ => true
  | UoW.seq a b => allJoined a && allJoined b
  | UoW.nested i fwd _ => fwd && allJoined i

/-- Whether executing the unit of work fails (error handlers never swallow
a failure, they can only replace it, so failure is structural). -/
def Fails {Row Err : Type} : UoW Row Err → Bool
  | UoW.insert _ => false
  | UoW.fail _ => true
  | UoW.seq a b => Fails a || Fails b
  | UoW.nested i _ _ => Fails i

/-- The error a failing execution propagates outward, with every error
handler on the path applied. -/
def firstError {Row Err : Type} : UoW Row Err → Option Err
  | UoW.insert _ => none
  | UoW.fail e => some e
  | UoW.seq a b =>
    match firstError a with
    | some e => some e
    | none => firstError b
  | UoW.nested i _ hnd => (firstError i).map (applyHandler hnd)

/-- The error originally raised by the failing step of the unit of work,
before any error handler touches it. -/
def rawError {Row Err : Type} : UoW Row Err → Option Err
  | UoW.insert _ => none
  | UoW.fail e => some e
  | UoW.seq a b =>
    match rawError a with
    | some e => some e
    | none => rawError b
  | UoW.nested i _ _ => rawError i

/-- Every error handler along the chain is absent or returns normally on
every error (it never replaces the error). -/
def allPassive {Row Err : Type} : UoW Row Err → Prop
  | UoW.insert _ => True
  | UoW.fail _ => True
  | UoW.seq a b => allPassive a ∧ allPassive b
  | UoW.nested i _ hnd =>
    (∀ f, hnd = some f → ∀ e, f e = none) ∧ allPassive i

/-- The rows the execution writes, in program order: all of them when the
unit of work succeeds, the ones issued before the failure otherwise. -/
def execWrites {Row Err : Type} : UoW Row Err → List Row
  | UoW.insert r => [r]
  | UoW.fail _ => []
  | UoW.seq a b => execWrites a ++ (if Fails a then [] else execWrites b)
  | UoW.nested i _ _ => execWrites i

/-- State effect of issuing a list of writes through handle `h`: each row is
appended to that transaction's pending buffer and logged, in order. -/
def applyWrites {Row Ev : Type} (h : Handle) (ws : List Row) (c : Conn Row Ev) :
    Conn Row Ev :=
  { c with
    openTxns := c.openTxns.map fun p => if p.1 = h then (p.1, p.2 ++ ws) else p
    log := c.log ++ ws.map DbAction.write }

/-- Recognizer for physical begin actions. -/
def isBegin {Row Ev : Type} : DbAction Row Ev → Bool
  | DbAction.begin => true
  | _ => false

/-- Recognizer for physical commit actions. -/
def isCommit {Row Ev : Type} : DbAction Row Ev → Bool
  | DbAction.commit => true
  | _ => false

/-- Recognizer for physical rollback actions. -/
def isRollback {Row Ev : Type} : DbAction Row Ev → Bool
  | DbAction.rollback => true
  | _ => false

/-- Recognizer for actions that close a physical transaction. -/
def isClosing {Row Ev : Type} (a : DbAction Row Ev) : Bool :=
  isCommit a || isRollback a

/-- Modelled from the spec: minimal shape of the `Currency` entity (the
models directory is not part of the excerpt); `code` and `symbol` are
JavaScript strings given as lists of character code units, and
`includes_tax` is the feature-flagged field updated by the service. -/
structure Currency where
  code : List Nat
  symbol : List Nat
  includes_tax : Bool
deriving DecidableEq

/-- Modelled from the spec: the `UpdateCurrencyInput` payload (the types
directory is not part of the excerpt); only `includes_tax` is read by
`CurrencyService.update`, absent in JavaScript meaning `undefined`. -/
structure UpdateCurrencyInput where
  includes_tax : Option Bool
deriving DecidableEq

/-- Modelled from the spec: the error kinds of `MedusaError` from
medusa-core-utils used by the excerpt. -/
inductive MedusaErrorType where
  | NOT_FOUND
  | INVALID_DATA
deriving DecidableEq

/-- Modelled from the spec: a `MedusaError` with its type and the varying
part of its message (the lowercased currency code for the NOT_FOUND error
thrown by `retrieveByCode`). -/
structure MedusaError where
  type : MedusaErrorType
  message : List Nat
deriving DecidableEq

/-- Events emitted by the currency service: `updated` is
`currency.updated` with its `{ code }` payload. -/
inductive CurrencyEvent where
  | updated (code : List Nat)
deriving DecidableEq

/-- JavaScript's `String.prototype.toLowerCase` on the code units appearing
in currency codes: ASCII code units 65-90 shift to 97-122, every other
code unit is unchanged. -/
def jsToLowerCase (s : List Nat) : List Nat :=
  s.map fun n => if 65 ≤ n ∧ n ≤ 90 then n + 32 else n

/-- Embedding of `CurrencyService.retrieveByCode` (currency.ts lines 53-73): use the
given transaction manager or fall back to the service's base manager,
lowercase the code, look the currency up by code, and throw a NOT_FOUND
`MedusaError` when none matches. -/
def CurrencyService.retrieveByCode (code : List Nat) (ctx : Option Handle)
    (c : Conn Currency CurrencyEvent) : Except MedusaError Currency :=
  let lowered := jsToLowerCase code
  match (visibleRows ctx c).find? (fun cur => cur.code == lowered) with
  | some currency => Except.ok currency
  | none => Except.error ⟨MedusaErrorType.NOT_FOUND, lowered⟩

/-- The feature-flagged block of `CurrencyService.update` (currency.ts
lines 119-127): when the tax-inclusive-pricing flag is enabled and
`data.includes_tax` is defined, copy it onto the currency. -/
def applyIncludesTax (taxInclusiveEnabled : Bool)
    (data : UpdateCurrencyInput) (cur : Currency) : Currency :=
  if taxInclusiveEnabled then
    match data.includes_tax with
    | some b => { cur with includes_tax := b }
    | none => cur
  else cur

/-- Embedding of `CurrencyService.update` (currency.ts lines 110-144): inside
`dbTransactionService_.run`, forwarding the caller's optional transaction
manager as `options.transactionManager`, retrieve the currency by code
passing no context, apply the feature-flagged `includes_tax` update, save
the currency through the run-provided transaction manager, emit
`currency.updated`, and return the currency. -/
def CurrencyService.update (code : List Nat) (data : UpdateCurrencyInput)
    (ctx : Option Handle) (taxInclusiveEnabled : Bool)
    (c : Conn Currency CurrencyEvent) :
    Except MedusaError Currency × Conn Currency CurrencyEvent :=
  DbTransactionService.run
    (fun transactionManager c1 =>
      match CurrencyService.retrieveByCode code none c1 with
      | Except.error e => (Except.error e, c1)
      | Except.ok currency0 =>
        let currency := applyIncludesTax taxInclusiveEnabled data currency0
        let c2 := writeRow transactionManager currency c1
        let c3 := emitEvent (CurrencyEvent.updated code) c2
        (Except.ok currency, c3))
    ⟨ctx, none⟩ c

/-- A nested `run` in a unit of work is exactly a call of the coordinator:
joining the ancestor handle when it is forwarded, outermost otherwise. -/
theorem exec_nested_eq_run {Row Ev Err : Type} (i : UoW Row Err) (fwd : Bool)
    (hnd : Option (Err → Option Err)) (h : Handle) (c : Conn Row Ev) :
    exec (UoW.nested i fwd hnd) h c =
      DbTransactionService.run (exec i)
        ⟨if fwd then some h else none, hnd⟩ c := by
  cases fwd <;> simp only [exec, DbTransactionService.run, if_true, if_false,
    Bool.false_eq_true, ite_true, ite_false]
  case false =>
    rcases hE : exec i c.nextId (beginTxn c) with ⟨r, c'⟩
    cases r <;> rfl
  case true =>
    rcases hE : exec i h c with ⟨r, c'⟩
    cases r <;> rfl

theorem applyWrites_nil {Row Ev : Type} (h : Handle) (c : Conn Row Ev) :
    applyWrites h [] c = c := by
  simp [applyWrites]

theorem applyWrites_append {Row Ev : Type} (h : Handle) (w1 w2 : List Row)
    (c : Conn Row Ev) :
    applyWrites h (w1 ++ w2) c = applyWrites h w2 (applyWrites h w1 c) := by
  have hfun :
      ((fun p : Nat × List Row => if p.1 = h then (p.1, p.2 ++ w2) else p) ∘
        fun p : Nat × List Row => if p.1 = h then (p.1, p.2 ++ w1) else p) =
      fun p : Nat × List Row => if p.1 = h then (p.1, p.2 ++ (w1 ++ w2)) else p := by
    funext p
    by_cases hp : p.1 = h <;> simp [hp, Function.comp]
  simp [applyWrites, List.map_map, hfun]

theorem Fails_eq_isSome {Row Err : Type} (u : UoW Row Err) :
    Fails u = (firstError u).isSome := by
  induction u with
  | insert r => rfl
  | fail e => rfl
  | seq a b iha ihb =>
    simp only [Fails, firstError, iha, ihb]
    cases firstError a <;> simp
  | nested i fwd hnd ih =>
    simp only [Fails, firstError, ih]
    cases firstError i <;> rfl

/-- A unit of work whose nested invocations all forward the ancestor handle
touches only that transaction's pending buffer: its whole database effect is
the list of issued writes, and it fails exactly with `firstError`. -/
theorem exec_allJoined {Row Ev Err : Type} (u : UoW Row Err) (h : Handle)
    (c : Conn Row Ev) (hA : allJoined u = true) :
    exec u h c =
      ((match firstError u with
        | some e => Except.error e
        | none => Except.ok ()),
       applyWrites h (execWrites u) c) := by
  induction u generalizing c with
  | insert r =>
    simp [exec, firstError, execWrites, applyWrites, writeRow]
  | fail e =>
    simp [exec, firstError, execWrites, applyWrites_nil]
  | seq a b iha ihb =>
    simp only [allJoined, Bool.and_eq_true] at hA
    obtain ⟨ha, hb⟩ := hA
    simp only [exec]
    rw [iha c ha]
    cases hfa : firstError a with
    | some e =>
      have hFa : Fails a = true := by
        rw [Fails_eq_isSome, hfa]; rfl
      simp [firstError, hfa, execWrites, hFa]
    | none =>
      have hFa : Fails a = false := by
        rw [Fails_eq_isSome, hfa]; rfl
      simp [ihb, hb, firstError, hfa, execWrites, hFa, applyWrites_append]
  | nested i fwd hnd ih =>
    simp only [allJoined, Bool.and_eq_true] at hA
    obtain ⟨hf, hi⟩ := hA
    subst hf
    simp only [exec, if_true]
    rw [ih c hi]
    cases hfi : firstError i with
    | some e => simp [firstError, hfi, execWrites]
    | none => simp [firstError, hfi, execWrites]

theorem find?_openTxns_fresh {Row : Type} (l : List (Nat × List Row)) (k : Nat)
    (hk : ∀ p ∈ l, p.1 < k) :
    l.find? (fun p => p.1 == k) = none := by
  rw [List.find?_eq_none]
  intro p hp
  simpa using Nat.ne_of_lt (hk p hp)

theorem mapUpdate_openTxns_fresh {Row : Type} (l : List (Nat × List Row))
    (k : Nat) (ws : List Row) (hk : ∀ p ∈ l, p.1 < k) :
    (l.map fun p => if p.1 = k then (p.1, p.2 ++ ws) else p) = l := by
  induction l with
  | nil => rfl
  | cons p l ih =>
    have hp : p.1 ≠ k := Nat.ne_of_lt (hk p (List.mem_cons_self p l))
    simp only [List.map_cons, if_neg hp, List.cons.injEq, true_and]
    exact ih fun q hq => hk q (List.mem_cons_of_mem p hq)

theorem filter_openTxns_fresh {Row : Type} (l : List (Nat × List Row)) (k : Nat)
    (hk : ∀ p ∈ l, p.1 < k) :
    (l.filter fun p => ¬(p.1 = k)) = l := by
  rw [List.filter_eq_self]
  intro p hp
  simpa using Nat.ne_of_lt (hk p hp)

theorem find?_snoc_fresh {Row : Type} (l : List (Nat × List Row)) (k : Nat)
    (ws : List Row) (hk : ∀ p ∈ l, p.1 < k) :
    (l ++ [(k, ws)]).find? (fun p => p.1 == k) = some (k, ws) := by
  induction l with
  | nil => simp [List.find?]
  | cons p l ih =>
    have hp : p.1 ≠ k := Nat.ne_of_lt (hk p (List.mem_cons_self p l))
    have hb : (p.1 == k) = false := by simpa using hp
    simp only [List.cons_append, List.find?, hb]
    exact ih fun q hq => hk q (List.mem_cons_of_mem p hq)

theorem filter_snoc_fresh {Row : Type} (l : List (Nat × List Row)) (k : Nat)
    (ws : List Row) (hk : ∀ p ∈ l, p.1 < k) :
    ((l ++ [(k, ws)]).filter fun p => ¬(p.1 = k)) = l := by
  rw [List.filter_append, filter_openTxns_fresh l k hk]
  simp

/-- Effect of the writes of a joined chain on a freshly begun transaction:
they all land in the new transaction's buffer. -/
theorem applyWrites_beginTxn {Row Ev : Type} (c : Conn Row Ev) (ws : List Row)
    (hWF : c.WF) :
    applyWrites c.nextId ws (beginTxn c) =
      { c with
        openTxns := c.openTxns ++ [(c.nextId, ws)]
        nextId := c.nextId + 1
        log := c.log ++ [DbAction.begin] ++ ws.map DbAction.write } := by
  simp [applyWrites, beginTxn, List.map_append,
    mapUpdate_openTxns_fresh c.openTxns c.nextId ws hWF, List.append_assoc]

/-- Outermost coordinator invocation of a successful all-joined chain:
one begin, the chain's writes in program order, one commit; all writes
become durably visible and no other transaction is touched. -/
theorem run_allJoined_ok {Row Ev Err : Type} (u : UoW Row Err)
    (hnd : Option (Err → Option Err)) (c : Conn Row Ev)
    (hA : allJoined u = true) (hWF : c.WF) (hok : firstError u = none) :
    DbTransactionService.run (exec u) ⟨none, hnd⟩ c =
      (Except.ok (),
       { c with
         committed := c.committed ++ execWrites u
         nextId := c.nextId + 1
         log := c.log ++ [DbAction.begin] ++ (execWrites u).map DbAction.write
           ++ [DbAction.commit] }) := by
  have hexec := exec_allJoined u c.nextId (beginTxn c) hA
  rw [hok] at hexec
  simp only [DbTransactionService.run]
  rw [hexec, applyWrites_beginTxn c (execWrites u) hWF]
  simp [commitTxn, buffer,
    find?_snoc_fresh c.openTxns c.nextId (execWrites u) hWF,
    filter_snoc_fresh c.openTxns c.nextId (execWrites u) hWF,
    List.append_assoc]
  intro a b hab
  exact Nat.ne_of_lt (hWF (a, b) hab)

/-- Outermost coordinator invocation of a failing all-joined chain: one
begin, the writes issued before the failure, one rollback; the durable
state is unchanged and the propagated error is the chain's error after the
outermost handler. -/
theorem run_allJoined_err {Row Ev Err : Type} (u : UoW Row Err)
    (hnd : Option (Err → Option Err)) (c : Conn Row Ev) (e : Err)
    (hA : allJoined u = true) (hWF : c.WF) (herr : firstError u = some e) :
    DbTransactionService.run (exec u) ⟨none, hnd⟩ c =
      (Except.error (applyHandler hnd e),
       { c with
         nextId := c.nextId + 1
         log := c.log ++ [DbAction.begin] ++ (execWrites u).map DbAction.write
           ++ [DbAction.rollback] }) := by
  have hexec := exec_allJoined u c.nextId (beginTxn c) hA
  rw [herr] at hexec
  simp only [DbTransactionService.run]
  rw [hexec, applyWrites_beginTxn c (execWrites u) hWF]
  simp [rollbackTxn,
    filter_snoc_fresh c.openTxns c.nextId (execWrites u) hWF,
    List.append_assoc]
  intro a b hab
  exact Nat.ne_of_lt (hWF (a, b) hab)

theorem countP_map_write {Row Ev : Type} (p : DbAction Row Ev → Bool)
    (hp : ∀ r, p (DbAction.write r) = false) (ws : List Row) :
    (ws.map DbAction.write).countP p = 0 := by
  induction ws with
  | nil => rfl
  | cons r ws ih => simp [List.countP_cons, hp, ih]

theorem exists_firstError_of_Fails {Row Err : Type} (u : UoW Row Err)
    (hfail : Fails u = true) : ∃ e, firstError u = some e := by
  rw [Fails_eq_isSome] at hfail
  exact Option.isSome_iff_exists.mp hfail

/-- C1: for every chain of nested `run` calls in which the unit of work at
any depth fails, the outer `run` call rejects and no write performed at any
depth is durably visible afterwards: the durable state is unchanged (full
rollback). -/
theorem chain_failure_full_rollback {Row Ev Err : Type} (u : UoW Row Err)
    (c : Conn Row Ev) (hA : allJoined u = true) (hWF : c.WF)
    (hfail : Fails u = true) :
    (∃ e, (runProgram u c).1 = Except.error e) ∧
      (runProgram u c).2.committed = c.committed := by
  obtain ⟨e, he⟩ := exists_firstError_of_Fails u hfail
  rw [runProgram, run_allJoined_err u none c e hA hWF he]
  exact ⟨⟨e, rfl⟩, rfl⟩

theorem chain_failure_full_rollback_witness :
    (∃ e, (runProgram
      (UoW.seq (UoW.insert 1)
        (UoW.nested (UoW.seq (UoW.insert 2) (UoW.fail "failed")) true none))
      (Conn.mk ([] : List Nat) [] 0 ([] : List (DbAction Nat Unit)))).1 =
        Except.error e) ∧
    (runProgram
      (UoW.seq (UoW.insert 1)
        (UoW.nested (UoW.seq (UoW.insert 2) (UoW.fail "failed")) true none))
      (Conn.mk ([] : List Nat) [] 0 ([] : List (DbAction Nat Unit)))).2.committed
      = [] :=
  chain_failure_full_rollback _ _ rfl
    (fun p hp => absurd hp (List.not_mem_nil p)) rfl

/-- C2: for every successful chain of nested `run` calls in which each
nested `run` is given the ancestor's handle, the outer `run` resolves,
exactly one physical commit occurs, and every write performed at every
depth is durably visible afterwards. -/
theorem chain_success_single_commit {Row Ev Err : Type} (u : UoW Row Err)
    (c : Conn Row Ev) (hA : allJoined u = true) (hWF : c.WF)
    (hsucc : Fails u = false) :
    (runProgram u c).1 = Except.ok () ∧
      (runProgram u c).2.committed = c.committed ++ execWrites u ∧
      (runProgram u c).2.log.countP isCommit = c.log.countP isCommit + 1 := by
  have hok : firstError u = none := by
    rw [Fails_eq_isSome] at hsucc
    exact Option.not_isSome_iff_eq_none.mp (by simp [hsucc])
  rw [runProgram, run_allJoined_ok u none c hA hWF hok]
  refine ⟨rfl, rfl, ?_⟩
  simp [List.countP_append, countP_map_write isCommit (fun _ => rfl),
    isCommit, List.countP_cons]

theorem chain_success_single_commit_witness :
    (@runProgram Nat Unit String
      (UoW.seq (UoW.insert 1) (UoW.nested (UoW.insert 2) true none))
      (Conn.mk [] [] 0 [])).1 = Except.ok () ∧
    (@runProgram Nat Unit String
      (UoW.seq (UoW.insert 1) (UoW.nested (UoW.insert 2) true none))
      (Conn.mk [] [] 0 [])).2.committed = [] ++ [1, 2] ∧
    (@runProgram Nat Unit String
      (UoW.seq (UoW.insert 1) (UoW.nested (UoW.insert 2) true none))
      (Conn.mk [] [] 0 [])).2.log.countP isCommit =
      List.countP isCommit ([] : List (DbAction Nat Unit)) + 1 :=
  chain_success_single_commit _ _ rfl
    (fun p hp => absurd hp (List.not_mem_nil p)) rfl

/-- C3: a `run` invocation whose unit of work fails and whose
`errorHandler` throws a replacement error rejects with the handler's error,
not the original, while the rollback decision is unchanged: the physical
transaction is rolled back and the durable state is untouched.  The second
conjunct is the integration-test scenario, with the throwing handler on the
nested joined invocation. -/
theorem errorHandler_error_replaces_original {Row Ev Err : Type}
    (u : UoW Row Err) (A B : Row) (hnd : Err → Option Err) (c : Conn Row Ev)
    (e e' : Err) (hA : allJoined u = true) (hWF : c.WF)
    (herr : firstError u = some e) (hrepl : hnd e = some e') :
    DbTransactionService.run (exec u) ⟨none, some hnd⟩ c =
      (Except.error e',
       { c with
         nextId := c.nextId + 1
         log := c.log ++ [DbAction.begin] ++ (execWrites u).map DbAction.write
           ++ [DbAction.rollback] }) ∧
    runProgram
      (UoW.seq (UoW.insert A)
        (UoW.nested (UoW.seq (UoW.insert B) (UoW.fail e)) true (some hnd))) c =
      (Except.error e',
       { c with
         nextId := c.nextId + 1
         log := c.log ++ [DbAction.begin, DbAction.write A, DbAction.write B,
           DbAction.rollback] }) := by
  constructor
  · rw [run_allJoined_err u (some hnd) c e hA hWF herr]
    simp [applyHandler, hrepl]
  · have hA2 : allJoined (UoW.seq (UoW.insert A)
        (UoW.nested (UoW.seq (UoW.insert B) (UoW.fail e)) true (some hnd)))
        = true := by
      simp [allJoined]
    have hE2 : firstError (UoW.seq (UoW.insert A)
        (UoW.nested (UoW.seq (UoW.insert B) (UoW.fail e)) true (some hnd)))
        = some e' := by
      simp [firstError, applyHandler, hrepl]
    rw [runProgram, run_allJoined_err _ none c e' hA2 hWF hE2]
    simp [applyHandler, execWrites, Fails]

theorem errorHandler_error_replaces_original_witness :
    DbTransactionService.run
      (exec (UoW.seq (UoW.insert 1)
        (UoW.nested (UoW.seq (UoW.insert 2) (UoW.fail "failed")) true none)))
      ⟨none, some fun _ => some "custom error handler failed"⟩
      (Conn.mk ([] : List Nat) [] 0 ([] : List (DbAction Nat Unit))) =
      (Except.error "custom error handler failed",
       Conn.mk [] [] 1
         [DbAction.begin, DbAction.write 1, DbAction.write 2,
          DbAction.rollback]) ∧
    runProgram
      (UoW.seq (UoW.insert 1)
        (UoW.nested (UoW.seq (UoW.insert 2) (UoW.fail "failed")) true
          (some fun _ => some "custom error handler failed")))
      (Conn.mk ([] : List Nat) [] 0 ([] : List (DbAction Nat Unit))) =
      (Except.error "custom error handler failed",
       Conn.mk [] [] 1
         [DbAction.begin, DbAction.write 1, DbAction.write 2,
          DbAction.rollback]) := by
  have h := errorHandler_error_replaces_original
    (UoW.seq (UoW.insert 1)
      (UoW.nested (UoW.seq (UoW.insert 2) (UoW.fail "failed")) true none))
    1 2 (fun _ => some "custom error handler failed")
    (Conn.mk ([] : List Nat) [] 0 ([] : List (DbAction Nat Unit)))
    "failed" "custom error handler failed" rfl
    (fun p hp => absurd hp (List.not_mem_nil p)) rfl rfl
  simpa [execWrites, Fails] using h

theorem firstError_eq_rawError {Row Err : Type} (u : UoW Row Err)
    (hp : allPassive u) : firstError u = rawError u := by
  induction u with
  | insert r => rfl
  | fail e => rfl
  | seq a b iha ihb =>
    obtain ⟨hpa, hpb⟩ := hp
    simp only [firstError, rawError, iha hpa, ihb hpb]
  | nested i fwd hnd ih =>
    obtain ⟨hph, hpi⟩ := hp
    simp only [firstError, rawError, ih hpi]
    cases hri : rawError i with
    | none => rfl
    | some e =>
      cases hnd with
      | none => rfl
      | some f => simp [applyHandler, hph f rfl e]

/-- C4: a failing chain in which no invocation's error handler replaces the
error (no handler was supplied, or every supplied handler returns normally)
rejects with exactly the original error raised by the failing unit of work,
propagated unchanged through every nesting level to the external caller,
and the durable state is unchanged. -/
theorem original_error_propagates_unchanged {Row Ev Err : Type}
    (u : UoW Row Err) (c : Conn Row Ev) (e : Err) (hA : allJoined u = true)
    (hP : allPassive u) (hWF : c.WF) (herr : rawError u = some e) :
    (runProgram u c).1 = Except.error e ∧
      (runProgram u c).2.committed = c.committed := by
  have hfe : firstError u = some e := by
    rw [firstError_eq_rawError u hP, herr]
  rw [runProgram, run_allJoined_err u none c e hA hWF hfe]
  exact ⟨rfl, rfl⟩

theorem original_error_propagates_unchanged_witness :
    (runProgram
      (UoW.seq (UoW.insert 1)
        (UoW.nested (UoW.seq (UoW.insert 2) (UoW.fail "failed")) true none))
      (Conn.mk ([] : List Nat) [] 0 ([] : List (DbAction Nat Unit)))).1 =
      Except.error "failed" ∧
    (runProgram
      (UoW.seq (UoW.insert 1)
        (UoW.nested (UoW.seq (UoW.insert 2) (UoW.fail "failed")) true none))
      (Conn.mk ([] : List Nat) [] 0 ([] : List (DbAction Nat Unit)))).2.committed
      = [] :=
  original_error_propagates_unchanged _ _ "failed" rfl
    (by simp [allPassive])
    (fun p hp => absurd hp (List.not_mem_nil p)) rfl

theorem countP_take_le {α : Type} (p : α → Bool) (l : List α) (n : Nat) :
    (l.take n).countP p ≤ l.countP p :=
  (List.take_sublist n l).countP_le p

/-- C5: within one logical call chain in which every nested `run` is passed
`options.transactionManager`, the database-layer trace is a single begin,
the chain's writes, and a single closing action; hence at most one physical
transaction of the chain is open at any instant, no second begin occurs
(all invocations work on the same physical transaction), joined invocations
perform neither commit nor rollback, and exactly one of commit or rollback
happens, commit exactly when the outermost invocation resolves
successfully. -/
theorem one_physical_txn_per_chain {Row Ev Err : Type} (u : UoW Row Err)
    (c : Conn Row Ev) (d : List (DbAction Row Ev)) (hA : allJoined u = true)
    (hWF : c.WF)
    (hd : d = DbAction.begin :: ((execWrites u).map DbAction.write ++
      [if Fails u then DbAction.rollback else DbAction.commit])) :
    (runProgram u c).2.log = c.log ++ d ∧
    (runProgram u c).2.openTxns = c.openTxns ∧
    d.countP isBegin = 1 ∧
    d.countP isCommit + d.countP isRollback = 1 ∧
    (d.countP isCommit = 1 ↔ Fails u = false) ∧
    ∀ n, (d.take n).countP isBegin ≤ (d.take n).countP isClosing + 1 := by
  have hbegin : d.countP isBegin = 1 := by
    subst hd
    cases hF : Fails u <;>
      simp [List.countP_cons, List.countP_append,
        countP_map_write isBegin (fun _ => rfl), isBegin]
  have hlog : (runProgram u c).2.log = c.log ++ d ∧
      (runProgram u c).2.openTxns = c.openTxns := by
    subst hd
    cases hF : Fails u with
    | false =>
      have hok : firstError u = none := by
        rw [Fails_eq_isSome] at hF
        exact Option.not_isSome_iff_eq_none.mp (by simp [hF])
      rw [runProgram, run_allJoined_ok u none c hA hWF hok]
      simp
    | true =>
      obtain ⟨e, he⟩ := exists_firstError_of_Fails u hF
      rw [runProgram, run_allJoined_err u none c e hA hWF he]
      simp
  refine ⟨hlog.1, hlog.2, hbegin, ?_, ?_, ?_⟩
  · subst hd
    cases hF : Fails u <;>
      simp [List.countP_cons, List.countP_append,
        countP_map_write isCommit (fun _ => rfl),
        countP_map_write isRollback (fun _ => rfl), isCommit, isRollback]
  · subst hd
    cases hF : Fails u <;>
      simp [List.countP_cons, List.countP_append,
        countP_map_write isCommit (fun _ => rfl), isCommit]
  · intro n
    calc (d.take n).countP isBegin ≤ d.countP isBegin :=
          countP_take_le isBegin d n
      _ = 1 := hbegin
      _ ≤ (d.take n).countP isClosing + 1 := Nat.succ_le_succ (Nat.zero_le _)

theorem one_physical_txn_per_chain_witness :
    (@runProgram Nat Unit String
      (UoW.seq (UoW.insert 1) (UoW.nested (UoW.insert 2) true none))
      (Conn.mk [] [] 0 [])).2.log =
      [] ++ [DbAction.begin, DbAction.write 1, DbAction.write 2,
        DbAction.commit] ∧
    (@runProgram Nat Unit String
      (UoW.seq (UoW.insert 1) (UoW.nested (UoW.insert 2) true none))
      (Conn.mk [] [] 0 [])).2.openTxns = [] ∧
    List.countP isBegin [DbAction.begin, DbAction.write 1, DbAction.write 2,
      (DbAction.commit : DbAction Nat Unit)] = 1 := by
  have h := one_physical_txn_per_chain
    (UoW.seq (UoW.insert (1 : Nat))
      (UoW.nested (UoW.insert 2) true (none : Option (String → Option String))))
    (Conn.mk ([] : List Nat) [] 0 ([] : List (DbAction Nat Unit)))
    [DbAction.begin, DbAction.write 1, DbAction.write 2, DbAction.commit]
    rfl (fun p hp => absurd hp (List.not_mem_nil p)) rfl
  exact ⟨h.1, h.2.1, h.2.2.1⟩

/-- C7: operations issued sequentially inside one unit of work, including
those of nested joined `run` calls, reach the single physical transaction
in program order with no reordering or batching, and after the commit the
durable state contains them in that order; in particular
`run(insert A then run(insert B))` with a forwarded handle commits and
reading back yields `A` then `B`. -/
theorem writes_in_program_order {Row Ev Err : Type} (u : UoW Row Err)
    (A B : Row) (c : Conn Row Ev) (hA : allJoined u = true) (hWF : c.WF)
    (hsucc : Fails u = false) :
    (runProgram u c).2.log =
      c.log ++ [DbAction.begin] ++ (execWrites u).map DbAction.write ++
        [DbAction.commit] ∧
    (runProgram u c).2.committed = c.committed ++ execWrites u ∧
    runProgram
      (UoW.seq (UoW.insert A)
        (UoW.nested (UoW.insert B) true (none : Option (Err → Option Err)))) c =
      (Except.ok (),
       { c with
         committed := c.committed ++ [A, B]
         nextId := c.nextId + 1
         log := c.log ++ [DbAction.begin, DbAction.write A, DbAction.write B,
           DbAction.commit] }) := by
  have hok : firstError u = none := by
    rw [Fails_eq_isSome] at hsucc
    exact Option.not_isSome_iff_eq_none.mp (by simp [hsucc])
  refine ⟨?_, ?_, ?_⟩
  · rw [runProgram, run_allJoined_ok u none c hA hWF hok]
  · rw [runProgram, run_allJoined_ok u none c hA hWF hok]
  · have hA2 : allJoined (UoW.seq (UoW.insert A)
        (UoW.nested (UoW.insert B) true (none : Option (Err → Option Err))))
        = true := by simp [allJoined]
    have hok2 : firstError (UoW.seq (UoW.insert A)
        (UoW.nested (UoW.insert B) true (none : Option (Err → Option Err))))
        = none := by simp [firstError]
    rw [runProgram, run_allJoined_ok _ none c hA2 hWF hok2]
    simp [execWrites, Fails]

theorem writes_in_program_order_witness :
    (@runProgram Nat Unit String
      (UoW.seq (UoW.insert 1) (UoW.nested (UoW.insert 2) true none))
      (Conn.mk [] [] 0 [])).2.log =
      [] ++ [DbAction.begin] ++
        List.map DbAction.write [1, 2] ++ [DbAction.commit] ∧
    (@runProgram Nat Unit String
      (UoW.seq (UoW.insert 1) (UoW.nested (UoW.insert 2) true none))
      (Conn.mk [] [] 0 [])).2.committed = [] ++ [1, 2] ∧
    @runProgram Nat Unit String
      (UoW.seq (UoW.insert 3) (UoW.nested (UoW.insert 4) true none))
      (Conn.mk [] [] 0 []) =
      (Except.ok (),
       Conn.mk ([] ++ [3, 4]) [] 1
         ([] ++ [DbAction.begin, DbAction.write 3, DbAction.write 4,
           DbAction.commit])) := by
  have h := writes_in_program_order
    (UoW.seq (UoW.insert (1 : Nat))
      (UoW.nested (UoW.insert 2) true (none : Option (String → Option String))))
    3 4 (Conn.mk [] [] 0 ([] : List (DbAction Nat Unit)))
    rfl (fun p hp => absurd hp (List.not_mem_nil p)) rfl
  refine ⟨?_, ?_, ?_⟩
  · simpa [execWrites, Fails] using h.1
  · simpa [execWrites, Fails] using h.2.1
  · simpa using h.2.2

/-- A nested coordinator call that does not forward a handle and whose
inner unit of work is a successful joined chain: it begins, runs and
commits its own unrelated physical transaction, leaving the enclosing
transaction's buffer untouched. -/
theorem exec_nested_new_ok {Row Ev Err : Type} (i : UoW Row Err)
    (hnd : Option (Err → Option Err)) (h : Handle) (c : Conn Row Ev)
    (hA : allJoined i = true) (hWF : c.WF) (hok : firstError i = none) :
    exec (UoW.nested i false hnd) h c =
      (Except.ok (),
       { c with
         committed := c.committed ++ execWrites i
         nextId := c.nextId + 1
         log := c.log ++ [DbAction.begin] ++ (execWrites i).map DbAction.write
           ++ [DbAction.commit] }) := by
  rw [exec_nested_eq_run]
  simp only [Bool.false_eq_true, ite_false]
  exact run_allJoined_ok i hnd c hA hWF hok

/-- C6: a `run` call made from inside another unit of work without
`options.transactionManager` opens a second, unrelated physical transaction
(two begins appear at the database layer), and the two transactions'
commits and rollbacks are independent: when the inner unrelated call
succeeds and the outer chain then fails, the inner transaction's write
stays durably visible while the outer transaction's write is rolled
back. -/
theorem no_handle_opens_second_txn {Row Ev Err : Type} (A B : Row) (e : Err)
    (c : Conn Row Ev) (hWF : c.WF) :
    runProgram
      (UoW.seq (UoW.insert A)
        (UoW.nested (UoW.insert B) false (none : Option (Err → Option Err)))) c =
      (Except.ok (),
       { c with
         committed := c.committed ++ [B, A]
         nextId := c.nextId + 2
         log := c.log ++ [DbAction.begin, DbAction.write A, DbAction.begin,
           DbAction.write B, DbAction.commit, DbAction.commit] }) ∧
    runProgram
      (UoW.seq
        (UoW.seq (UoW.insert A)
          (UoW.nested (UoW.insert B) false (none : Option (Err → Option Err))))
        (UoW.fail e)) c =
      (Except.error e,
       { c with
         committed := c.committed ++ [B]
         nextId := c.nextId + 2
         log := c.log ++ [DbAction.begin, DbAction.write A, DbAction.begin,
           DbAction.write B, DbAction.commit, DbAction.rollback] }) := by
  have hW1 : @writeRow Row Ev c.nextId A (beginTxn c) =
      { c with
        openTxns := c.openTxns ++ [(c.nextId, [A])]
        nextId := c.nextId + 1
        log := c.log ++ [DbAction.begin, DbAction.write A] } := by
    simp [writeRow, beginTxn, List.map_append,
      mapUpdate_openTxns_fresh c.openTxns c.nextId [A] hWF]
  have hWF1 : @Conn.WF Row Ev
      { c with
        openTxns := c.openTxns ++ [(c.nextId, [A])]
        nextId := c.nextId + 1
        log := c.log ++ [DbAction.begin, DbAction.write A] } := by
    intro p hp
    rcases List.mem_append.mp hp with hp1 | hp2
    · exact Nat.lt_succ_of_lt (hWF p hp1)
    · simp at hp2
      simp [hp2]
  have hExec : exec
      (UoW.seq (UoW.insert A)
        (UoW.nested (UoW.insert B) false (none : Option (Err → Option Err))))
      c.nextId (beginTxn c) =
      (Except.ok (),
       { c with
         committed := c.committed ++ [B]
         openTxns := c.openTxns ++ [(c.nextId, [A])]
         nextId := c.nextId + 2
         log := c.log ++ [DbAction.begin, DbAction.write A, DbAction.begin,
           DbAction.write B, DbAction.commit] }) := by
    have hstep : exec
        (UoW.seq (UoW.insert A)
          (UoW.nested (UoW.insert B) false (none : Option (Err → Option Err))))
        c.nextId (beginTxn c) =
        exec (UoW.nested (UoW.insert B) false (none : Option (Err → Option Err)))
          c.nextId (writeRow c.nextId A (beginTxn c)) := rfl
    rw [hstep, hW1,
      exec_nested_new_ok (UoW.insert B) none c.nextId _ rfl hWF1 rfl]
    simp [execWrites]
  have hCommit : @commitTxn Row Ev c.nextId
      { c with
        committed := c.committed ++ [B]
        openTxns := c.openTxns ++ [(c.nextId, [A])]
        nextId := c.nextId + 2
        log := c.log ++ [DbAction.begin, DbAction.write A, DbAction.begin,
          DbAction.write B, DbAction.commit] } =
      { c with
        committed := c.committed ++ [B, A]
        nextId := c.nextId + 2
        log := c.log ++ [DbAction.begin, DbAction.write A, DbAction.begin,
          DbAction.write B, DbAction.commit, DbAction.commit] } := by
    simp [commitTxn, buffer,
      find?_snoc_fresh c.openTxns c.nextId [A] hWF,
      filter_snoc_fresh c.openTxns c.nextId [A] hWF]
    intro a b hab
    exact Nat.ne_of_lt (hWF (a, b) hab)
  have hRoll : @rollbackTxn Row Ev c.nextId
      { c with
        committed := c.committed ++ [B]
        openTxns := c.openTxns ++ [(c.nextId, [A])]
        nextId := c.nextId + 2
        log := c.log ++ [DbAction.begin, DbAction.write A, DbAction.begin,
          DbAction.write B, DbAction.commit] } =
      { c with
        committed := c.committed ++ [B]
        nextId := c.nextId + 2
        log := c.log ++ [DbAction.begin, DbAction.write A, DbAction.begin,
          DbAction.write B, DbAction.commit, DbAction.rollback] } := by
    simp [rollbackTxn, filter_snoc_fresh c.openTxns c.nextId [A] hWF]
    intro a b hab
    exact Nat.ne_of_lt (hWF (a, b) hab)
  constructor
  · rw [runProgram]
    simp only [DbTransactionService.run, hExec, hCommit]
  · have hExec2 : exec
        (UoW.seq
          (UoW.seq (UoW.insert A)
            (UoW.nested (UoW.insert B) false (none : Option (Err → Option Err))))
          (UoW.fail e)) c.nextId (beginTxn c) =
        (Except.error e,
         { c with
           committed := c.committed ++ [B]
           openTxns := c.openTxns ++ [(c.nextId, [A])]
           nextId := c.nextId + 2
           log := c.log ++ [DbAction.begin, DbAction.write A, DbAction.begin,
             DbAction.write B, DbAction.commit] }) := by
      have hstep2 : exec
          (UoW.seq
            (UoW.seq (UoW.insert A)
              (UoW.nested (UoW.insert B) false
                (none : Option (Err → Option Err))))
            (UoW.fail e)) c.nextId (beginTxn c) =
          match exec
            (UoW.seq (UoW.insert A)
              (UoW.nested (UoW.insert B) false
                (none : Option (Err → Option Err))))
            c.nextId (beginTxn c) with
          | (Except.ok _, c') => exec (UoW.fail e) c.nextId c'
          | (Except.error e', c') => (Except.error e', c') := rfl
      rw [hstep2, hExec]
      rfl
    rw [runProgram]
    simp only [DbTransactionService.run, hExec2, hRoll, applyHandler]

theorem no_handle_opens_second_txn_witness :
    runProgram
      (UoW.seq (UoW.insert 1)
        (UoW.nested (UoW.insert 2) false (none : Option (String → Option String))))
      (Conn.mk ([] : List Nat) [] 0 ([] : List (DbAction Nat Unit))) =
      (Except.ok (),
       Conn.mk ([] ++ [2, 1]) [] 2
         ([] ++ [DbAction.begin, DbAction.write 1, DbAction.begin,
           DbAction.write 2, DbAction.commit, DbAction.commit])) ∧
    runProgram
      (UoW.seq
        (UoW.seq (UoW.insert 1)
          (UoW.nested (UoW.insert 2) false (none : Option (String → Option String))))
        (UoW.fail "failed"))
      (Conn.mk ([] : List Nat) [] 0 ([] : List (DbAction Nat Unit))) =
      (Except.error "failed",
       Conn.mk ([] ++ [2]) [] 2
         ([] ++ [DbAction.begin, DbAction.write 1, DbAction.begin,
           DbAction.write 2, DbAction.commit, DbAction.rollback])) :=
  no_handle_opens_second_txn 1 2 "failed"
    (Conn.mk ([] : List Nat) [] 0 ([] : List (DbAction Nat Unit)))
    (fun p hp => absurd hp (List.not_mem_nil p))

theorem jsToLowerCase_idem (s : List Nat) :
    jsToLowerCase (jsToLowerCase s) = jsToLowerCase s := by
  have hfun : ((fun n => if 65 ≤ n ∧ n ≤ 90 then n + 32 else n) ∘
      fun n : Nat => if 65 ≤ n ∧ n ≤ 90 then n + 32 else n) =
      fun n : Nat => if 65 ≤ n ∧ n ≤ 90 then n + 32 else n := by
    funext n
    by_cases hn : 65 ≤ n ∧ n ≤ 90
    · have hout : ¬(65 ≤ n + 32 ∧ n + 32 ≤ 90) := by omega
      simp only [Function.comp, hn, and_self, if_true, if_neg hout]
    · simp [Function.comp, hn]
  simp [jsToLowerCase, List.map_map, hfun]

/-- C9: `retrieveByCode` is case-insensitive in its code argument — for
every code and context it returns the same result as for the lowercased
code, because the code is lowercased before the lookup — and when no
currency matches it throws a NOT_FOUND `MedusaError` rather than returning
an empty value. -/
theorem retrieveByCode_case_insensitive (code : List Nat)
    (ctx : Option Handle) (c : Conn Currency CurrencyEvent) :
    CurrencyService.retrieveByCode code ctx c =
      CurrencyService.retrieveByCode (jsToLowerCase code) ctx c ∧
    ((visibleRows ctx c).find?
        (fun cur => cur.code == jsToLowerCase code) = none →
      CurrencyService.retrieveByCode code ctx c =
        Except.error ⟨MedusaErrorType.NOT_FOUND, jsToLowerCase code⟩) := by
  constructor
  · simp only [CurrencyService.retrieveByCode, jsToLowerCase_idem]
  · intro hnone
    simp only [CurrencyService.retrieveByCode, hnone]

theorem retrieveByCode_case_insensitive_witness :
    CurrencyService.retrieveByCode [85, 83, 68] none (Conn.mk [] [] 0 []) =
      CurrencyService.retrieveByCode (jsToLowerCase [85, 83, 68]) none
        (Conn.mk [] [] 0 []) ∧
    CurrencyService.retrieveByCode [85, 83, 68] none (Conn.mk [] [] 0 []) =
      Except.error ⟨MedusaErrorType.NOT_FOUND, jsToLowerCase [85, 83, 68]⟩ :=
  ⟨(retrieveByCode_case_insensitive [85, 83, 68] none (Conn.mk [] [] 0 [])).1,
   (retrieveByCode_case_insensitive [85, 83, 68] none (Conn.mk [] [] 0 [])).2
     rfl⟩

/-- C8: in `CurrencyService.update` the `currency.updated` event is emitted
inside the unit of work, after the currency is saved but before the
physical transaction commits: an outermost call produces the database
trace begin, write, emit, commit, and a joined call (its enclosing
transaction still open) produces write then emit with no commit at all —
so the emission precedes the commit and can happen even though the
enclosing transaction may later roll back. -/
theorem update_emits_before_commit (code : List Nat)
    (data : UpdateCurrencyInput) (ff : Bool) (cur : Currency) (h : Handle)
    (c : Conn Currency CurrencyEvent) (hWF : c.WF)
    (hfind : c.committed.find? (fun x => x.code == jsToLowerCase code) =
      some cur) :
    CurrencyService.update code data none ff c =
      (Except.ok (applyIncludesTax ff data cur),
       { c with
         committed := c.committed ++ [applyIncludesTax ff data cur]
         nextId := c.nextId + 1
         log := c.log ++ [DbAction.begin,
           DbAction.write (applyIncludesTax ff data cur),
           DbAction.emit (CurrencyEvent.updated code), DbAction.commit] }) ∧
    (CurrencyService.update code data (some h) ff c).2.log =
      c.log ++ [DbAction.write (applyIncludesTax ff data cur),
        DbAction.emit (CurrencyEvent.updated code)] := by
  constructor
  · have hr1 : CurrencyService.retrieveByCode code none (beginTxn c) =
        Except.ok cur := by
      simp [CurrencyService.retrieveByCode, visibleRows, beginTxn, hfind]
    have hw : writeRow c.nextId (applyIncludesTax ff data cur) (beginTxn c) =
        { c with
          openTxns := c.openTxns ++ [(c.nextId, [applyIncludesTax ff data cur])]
          nextId := c.nextId + 1
          log := c.log ++ [DbAction.begin,
            DbAction.write (applyIncludesTax ff data cur)] } := by
      simp [writeRow, beginTxn, List.map_append,
        mapUpdate_openTxns_fresh c.openTxns c.nextId
          [applyIncludesTax ff data cur] hWF]
    simp only [CurrencyService.update, DbTransactionService.run, hr1]
    rw [hw]
    simp only [emitEvent]
    simp [commitTxn, buffer,
      find?_snoc_fresh c.openTxns c.nextId [applyIncludesTax ff data cur] hWF,
      filter_snoc_fresh c.openTxns c.nextId [applyIncludesTax ff data cur] hWF]
    intro a b hab
    exact Nat.ne_of_lt (hWF (a, b) hab)
  · have hr0 : CurrencyService.retrieveByCode code none c = Except.ok cur := by
      simp [CurrencyService.retrieveByCode, visibleRows, hfind]
    simp only [CurrencyService.update, DbTransactionService.run, hr0,
      writeRow, emitEvent]
    simp

theorem update_emits_before_commit_witness :
    CurrencyService.update [85, 83, 68] ⟨some true⟩ none true
      (Conn.mk [Currency.mk [117, 115, 100] [36] false] [] 0 []) =
      (Except.ok (applyIncludesTax true ⟨some true⟩
        (Currency.mk [117, 115, 100] [36] false)),
       Conn.mk
         ([Currency.mk [117, 115, 100] [36] false] ++
           [applyIncludesTax true ⟨some true⟩
             (Currency.mk [117, 115, 100] [36] false)])
         [] 1
         ([] ++ [DbAction.begin,
           DbAction.write (applyIncludesTax true ⟨some true⟩
             (Currency.mk [117, 115, 100] [36] false)),
           DbAction.emit (CurrencyEvent.updated [85, 83, 68]),
           DbAction.commit])) ∧
    (CurrencyService.update [85, 83, 68] ⟨some true⟩ (some 5) true
      (Conn.mk [Currency.mk [117, 115, 100] [36] false] [] 0 [])).2.log =
      [] ++ [DbAction.write (applyIncludesTax true ⟨some true⟩
          (Currency.mk [117, 115, 100] [36] false)),
        DbAction.emit (CurrencyEvent.updated [85, 83, 68])] :=
  update_emits_before_commit [85, 83, 68] ⟨some true⟩ true
    (Currency.mk [117, 115, 100] [36] false) 5
    (Conn.mk [Currency.mk [117, 115, 100] [36] false] [] 0 [])
    (fun p hp => absurd hp (List.not_mem_nil p)) rfl

/-- C10: the lookup inside `CurrencyService.update` calls `retrieveByCode`
without forwarding the transaction context, so the read runs against the
service's base manager outside the transaction opened or joined by `run`:
when the currency exists only as an uncommitted write of the joined
transaction, `retrieveByCode` given that handle finds it, yet `update`
given the same handle fails with NOT_FOUND — only the subsequent save uses
the transaction handle. -/
theorem update_reads_base_manager (code : List Nat)
    (data : UpdateCurrencyInput) (ff : Bool) (cur : Currency) (h : Handle)
    (c : Conn Currency CurrencyEvent)
    (hnone : c.committed.find? (fun x => x.code == jsToLowerCase code) = none)
    (hbuf : (buffer h c).find? (fun x => x.code == jsToLowerCase code) =
      some cur) :
    CurrencyService.retrieveByCode code (some h) c = Except.ok cur ∧
    (CurrencyService.update code data (some h) ff c).1 =
      Except.error ⟨MedusaErrorType.NOT_FOUND, jsToLowerCase code⟩ := by
  constructor
  · simp [CurrencyService.retrieveByCode, visibleRows, List.find?_append,
      hnone, hbuf]
  · have hr : CurrencyService.retrieveByCode code none c =
        Except.error ⟨MedusaErrorType.NOT_FOUND, jsToLowerCase code⟩ := by
      simp [CurrencyService.retrieveByCode, visibleRows, hnone]
    simp [CurrencyService.update, DbTransactionService.run, hr, applyHandler]

theorem update_reads_base_manager_witness :
    CurrencyService.retrieveByCode [85, 83, 68] (some 0)
      (Conn.mk [] [(0, [Currency.mk [117, 115, 100] [36] false])] 1 []) =
      Except.ok (Currency.mk [117, 115, 100] [36] false) ∧
    (CurrencyService.update [85, 83, 68] ⟨some true⟩ (some 0) true
      (Conn.mk [] [(0, [Currency.mk [117, 115, 100] [36] false])] 1 [])).1 =
      Except.error ⟨MedusaErrorType.NOT_FOUND, jsToLowerCase [85, 83, 68]⟩ :=
  update_reads_base_manager [85, 83, 68] ⟨some true⟩ true
    (Currency.mk [117, 115, 100] [36] false) 0
    (Conn.mk [] [(0, [Currency.mk [117, 115, 100] [36] false])] 1 [])
    rfl rfl
